import Mathlib

/-!
Shallow embedding of the batch conversion pipeline of
`src/files2knowledge.py` (the `files2knowledge` repository).

The pipeline turns images and PDFs into JSON description records on disk:
`OllamaClient.generate` performs one inference call, `process_image`
writes one record per standalone image, `process_pdf` writes one record
per PDF page plus one combined record, and `process_input_path`
dispatches a path (file or directory) to those two.

Modelling choices:
  * file-system output is a journal `List (String × Record)` of writes in
    program order (a later write to the same path overwrites);
  * `datetime.now().strftime("%Y%m%d_%H%M%S")` is a caller-supplied clock
    `Nat → String` read at an incrementing tick counter;
  * the inference backend and the PDF rasterizer are oracles in `Config`
    (`gen`, `raster`), each returning `Except` like the Python calls that
    can raise;
  * input paths are `/`-separated strings; `pathName`, `pathStem`,
    `pathSuffix` embed `pathlib.PurePath.name/.stem/.suffix`
    (suffix nonempty iff the last dot of the final component is neither
    its first nor its last character);
  * Python exceptions are `Except Err`; because writes performed before an
    exception persist on disk, every operation returns its state even on
    error: `St → St × Except Err α`.
-/

namespace F2K

/-- Characters of the final path component (`pathlib.PurePath.name`):
everything after the last `/`. -/
def pathNameAux : List Char → List Char → List Char
  | [], acc => acc
  | c :: cs, acc => if c = '/' then pathNameAux cs [] else pathNameAux cs (acc ++ [c])

def pathNameChars (p : String) : List Char := pathNameAux p.data []

def pathName (p : String) : String := ⟨pathNameChars p⟩

/-- Split a component at its last dot: `some (before, after)` when a dot
occurs, `none` otherwise. -/
def splitLastDot : List Char → Option (List Char × List Char)
  | [] => none
  | c :: cs =>
    match splitLastDot cs with
    | some (b, a) => some (c :: b, a)
    | none => if c = '.' then some ([], cs) else none

/-- `pathlib.PurePath.stem`: the name up to the last dot, unless that dot
is the first or last character of the name. -/
def stemChars (name : List Char) : List Char :=
  match splitLastDot name with
  | some (b, a) => if b = [] ∨ a = [] then name else b
  | none => name

/-- `pathlib.PurePath.suffix`: from the last dot on, under the same
first/last-character proviso, else empty. -/
def suffixChars (name : List Char) : List Char :=
  match splitLastDot name with
  | some (b, a) => if b = [] ∨ a = [] then [] else '.' :: a
  | none => []

def pathStem (p : String) : String := ⟨stemChars (pathNameChars p)⟩

def pathSuffix (p : String) : String := ⟨suffixChars (pathNameChars p)⟩

/-- ASCII-adequate embedding of Python `str.lower()` (only extension
strings are lowered by the program). -/
def strLower (s : String) : String := ⟨s.data.map Char.toLower⟩

def strEndsWith (s t : String) : Bool := t.data.isSuffixOf s.data

def strStartsWith (s t : String) : Bool := t.data.isPrefixOf s.data

/-- One persisted JSON record (`json.dump` targets in the source):
an image record `{filename, timestamp, description}`, a PDF page record
`{page, filename, timestamp, description}`, or the combined record
`{filename, timestamp, total_pages, pages}` whose `pages` mapping is kept
as its insertion-ordered key/value list. -/
inductive Record where
  | image (filename timestamp description : String)
  | page (page : Nat) (filename timestamp description : String)
  | combined (filename timestamp : String) (total_pages : Nat)
      (pages : List (String × String))
  deriving DecidableEq

/-- The Python exceptions the pipeline can raise. -/
inductive Err where
  | notFound (msg : String)
  | inferenceError (msg : String)
  | rasterizationError (msg : String)
  deriving DecidableEq

/-- Identity of one inference call: a standalone image, or page `k` of a
PDF (in the source the latter is the temp file `page_k.png` rasterized
from that PDF). -/
inductive GenKey where
  | image (path : String)
  | pdfPage (pdfPath : String) (page : Nat)
  deriving DecidableEq

/-- Run environment: output directory, wall clock (timestamp string per
tick), rasterizer oracle (page count or failure) and inference oracle. -/
structure Config where
  outputDir : String
  clock : Nat → String
  raster : String → Except String Nat
  gen : GenKey → Except String String

/-- The input file tree: which paths are existing files and which are
existing directories. -/
structure InputFS where
  files : List String
  dirs : List String

/-- Mutable world state: next clock tick and the journal of record
writes, in program order. -/
structure St where
  tick : Nat
  out : List (String × Record)
  deriving DecidableEq

deriving instance DecidableEq for Except

/-- Path of a standalone image record,
`output_dir / f"{image_path.stem}_description_{timestamp}.json"`
(line 119 of the source). -/
def imageOutputFile (outputDir imagePath ts : String) : String :=
  outputDir ++ "/" ++ pathStem imagePath ++ "_description_" ++ ts ++ ".json"

/-- The per-document output folder,
`output_dir / f"{pdf_path.stem}_{timestamp}"` (line 164). -/
def pdfOutputDirOf (outputDir pdfPath ts : String) : String :=
  outputDir ++ "/" ++ pathStem pdfPath ++ "_" ++ ts

/-- Path of one page record,
`pdf_output_dir / f"page_{page_num}_description.json"` (line 193). -/
def pagePath (pdfOutDir : String) (k : Nat) : String :=
  pdfOutDir ++ "/page_" ++ toString k ++ "_description.json"

/-- Path of the combined record,
`pdf_output_dir / f"{pdf_path.stem}_all_descriptions.json"` (line 215). -/
def combinedPath (pdfOutDir pdfPath : String) : String :=
  pdfOutDir ++ "/" ++ pathStem pdfPath ++ "_all_descriptions.json"

/-- `process_image` (lines 91-136): one inference call, then capture a
timestamp, then write one image record; the inference failure is
re-raised before any timestamp is taken or record written. -/
def process_image (cfg : Config) (imagePath : String) (s : St) :
    St × Except Err String :=
  match cfg.gen (.image imagePath) with
  | .error m => (s, .error (.inferenceError m))
  | .ok description =>
    let timestamp := cfg.clock s.tick
    let s : St := { s with tick := s.tick + 1 }
    let output_file := imageOutputFile cfg.outputDir imagePath timestamp
    let s : St := { s with
      out := s.out ++ [(output_file, .image (pathName imagePath) timestamp description)] }
    (s, .ok output_file)

/-- The page numbers `i+1` of the `for i, image in enumerate(images)`
loops: `[1, 2, ..., n]`. -/
def pageNums (n : Nat) : List Nat := (List.range n).map (· + 1)

/-- The page loop of `process_pdf` (lines 191-212): for each page in
order, one inference call, one page-record write, accumulating the
output files and the `descriptions` mapping; the first failure aborts,
keeping earlier writes. -/
def processPages (cfg : Config) (pdfPath pdfOutDir ts : String) :
    List Nat → St → St × Except Err (List String × List (String × String))
  | [], s => (s, .ok ([], []))
  | k :: ks, s =>
    match cfg.gen (.pdfPage pdfPath k) with
    | .error m => (s, .error (.inferenceError m))
    | .ok description =>
      let output_file := pagePath pdfOutDir k
      let s : St := { s with
        out := s.out ++ [(output_file, .page k (pathName pdfPath) ts description)] }
      match processPages cfg pdfPath pdfOutDir ts ks s with
      | (s, .error e) => (s, .error e)
      | (s, .ok (fs, ds)) => (s, .ok (output_file :: fs, (toString k, description) :: ds))

/-- `process_pdf` (lines 138-233): capture one timestamp, derive the
per-document folder, rasterize, run the page loop, then write the
combined record and return all artifact paths (pages first, combined
last). -/
def process_pdf (cfg : Config) (pdfPath : String) (s : St) :
    St × Except Err (List String) :=
  let timestamp := cfg.clock s.tick
  let s : St := { s with tick := s.tick + 1 }
  let pdf_output_dir := pdfOutputDirOf cfg.outputDir pdfPath timestamp
  match cfg.raster pdfPath with
  | .error m => (s, .error (.rasterizationError m))
  | .ok n =>
    match processPages cfg pdfPath pdf_output_dir timestamp (pageNums n) s with
    | (s, .error e) => (s, .error e)
    | (s, .ok (output_files, descriptions)) =>
      let combined_output := combinedPath pdf_output_dir pdfPath
      let s : St := { s with
        out := s.out ++
          [(combined_output, .combined (pathName pdfPath) timestamp n descriptions)] }
      (s, .ok (output_files ++ [combined_output]))

/-- The image extension whitelist of lines 263 and 275. -/
def imageExts : List String := [".jpg", ".jpeg", ".png", ".bmp", ".gif"]

/-- `input_path.glob(f'**/*{ext}')`: the files strictly below `dir`, at
any depth, whose final component ends with the literal (case-sensitive)
`ext`, in file-system enumeration order. -/
def globFiles (fsys : InputFS) (dir ext : String) : List String :=
  fsys.files.filter (fun f => strStartsWith f (dir ++ "/") && strEndsWith (pathName f) ext)

/-- The `for pdf_file in pdf_files` loop of lines 281-282: sequential
`process_pdf` with `output_files.extend`, aborting on the first raised
error. -/
def processPdfList (cfg : Config) : List String → St → St × Except Err (List String)
  | [], s => (s, .ok [])
  | f :: fs, s =>
    match process_pdf cfg f s with
    | (s, .error e) => (s, .error e)
    | (s, .ok out1) =>
      match processPdfList cfg fs s with
      | (s, .error e) => (s, .error e)
      | (s, .ok out2) => (s, .ok (out1 ++ out2))

/-- The `for image_file in image_files` loop of lines 287-288:
sequential `process_image` with `output_files.append`. -/
def processImageList (cfg : Config) : List String → St → St × Except Err (List String)
  | [], s => (s, .ok [])
  | f :: fs, s =>
    match process_image cfg f s with
    | (s, .error e) => (s, .error e)
    | (s, .ok out1) =>
      match processImageList cfg fs s with
      | (s, .error e) => (s, .error e)
      | (s, .ok out2) => (s, .ok (out1 :: out2))

/-- `process_input_path` (lines 235-293): a file dispatches on
`suffix.lower()` (`.pdf` to `process_pdf`, the image extensions to
`process_image`, anything else skipped with a warning); a directory
globs `**/*.pdf` then `**/*{ext}` for each image extension and processes
all PDFs before all images; anything else raises `FileNotFoundError`. -/
def process_input_path (cfg : Config) (fsys : InputFS) (input_path : String) (s : St) :
    St × Except Err (List String) :=
  if fsys.files.contains input_path then
    if strLower (pathSuffix input_path) = ".pdf" then
      process_pdf cfg input_path s
    else if imageExts.contains (strLower (pathSuffix input_path)) then
      match process_image cfg input_path s with
      | (s, .error e) => (s, .error e)
      | (s, .ok f) => (s, .ok [f])
    else
      (s, .ok [])
  else if fsys.dirs.contains input_path then
    let pdf_files := globFiles fsys input_path ".pdf"
    let image_files := imageExts.flatMap (fun ext => globFiles fsys input_path ext)
    match processPdfList cfg pdf_files s with
    | (s, .error e) => (s, .error e)
    | (s, .ok files1) =>
      match processImageList cfg image_files s with
      | (s, .error e) => (s, .error e)
      | (s, .ok files2) => (s, .ok (files1 ++ files2))
  else
    (s, .error (.notFound ("Input path does not exist: " ++ input_path)))

/-- Outcome of the single `requests.post` of `OllamaClient.generate`
(line 83), as seen by the code: a transport-level exception, or a
response with a status code and the optional `response` field of its
JSON body. -/
inductive HttpResult where
  | transportError (msg : String)
  | response (status : Nat) (field : Option String)
  deriving DecidableEq

/-- Lines 82-89 of `OllamaClient.generate`: `raise_for_status()` raises
(a `RequestException`, re-raised as the generic Ollama API error)
exactly for status codes 400-599; otherwise
`result.get("response", "")` returns the field or the empty string.
Transport failures are also caught and re-raised the same way. -/
def generateResult : HttpResult → Except Err String
  | .transportError m => .error (.inferenceError ("Error calling Ollama API: " ++ m))
  | .response status field =>
    if 400 ≤ status ∧ status < 600 then
      .error (.inferenceError ("Error calling Ollama API: HTTP status " ++ toString status))
    else
      .ok (field.getD "")

/-! Pure, state-free formulas describing the artifacts a successful run
produces; the theorems below equate the stateful pipeline with them. -/

/-- Artifact paths of one successfully processed PDF: its page records in
page order, then its combined record. -/
def pdfFilesOut (od p : String) (n : Nat) (ts : String) : List String :=
  (pageNums n).map (pagePath (pdfOutputDirOf od p ts)) ++
    [combinedPath (pdfOutputDirOf od p ts) p]

/-- Journal writes of one successfully processed PDF whose page `k` got
description `d k`. -/
def pdfWritesOut (od p : String) (n : Nat) (ts : String) (d : Nat → String) :
    List (String × Record) :=
  (pageNums n).map (fun k =>
      (pagePath (pdfOutputDirOf od p ts) k, Record.page k (pathName p) ts (d k))) ++
    [(combinedPath (pdfOutputDirOf od p ts) p,
      Record.combined (pathName p) ts n ((pageNums n).map (fun k => (toString k, d k))))]

/-- Artifact paths of a successful PDF batch started at clock tick `t`,
page counts given by `N`. -/
def pdfListFilesOut (cfg : Config) (N : String → Nat) : List String → Nat → List String
  | [], _ => []
  | f :: fs, t => pdfFilesOut cfg.outputDir f (N f) (cfg.clock t) ++
      pdfListFilesOut cfg N fs (t + 1)

/-- Journal writes of a successful PDF batch, descriptions given by `D`. -/
def pdfListWritesOut (cfg : Config) (N : String → Nat) (D : String → Nat → String) :
    List String → Nat → List (String × Record)
  | [], _ => []
  | f :: fs, t => pdfWritesOut cfg.outputDir f (N f) (cfg.clock t) (D f) ++
      pdfListWritesOut cfg N D fs (t + 1)

/-- Artifact paths of a successful image batch started at tick `t`. -/
def imageListFilesOut (cfg : Config) : List String → Nat → List String
  | [], _ => []
  | f :: fs, t => imageOutputFile cfg.outputDir f (cfg.clock t) ::
      imageListFilesOut cfg fs (t + 1)

/-- Journal writes of a successful image batch, descriptions given by `DI`. -/
def imageListWritesOut (cfg : Config) (DI : String → String) :
    List String → Nat → List (String × Record)
  | [], _ => []
  | f :: fs, t => (imageOutputFile cfg.outputDir f (cfg.clock t),
      Record.image (pathName f) (cfg.clock t) (DI f)) ::
      imageListWritesOut cfg DI fs (t + 1)

/-- `path` is one of the three output-path shapes the pipeline can write
with the timestamp of clock tick `i`. -/
def shapeAt (cfg : Config) (i : Nat) (path : String) : Prop :=
  ∃ src, path = imageOutputFile cfg.outputDir src (cfg.clock i) ∨
    (∃ k, path = pagePath (pdfOutputDirOf cfg.outputDir src (cfg.clock i)) k) ∨
    path = combinedPath (pdfOutputDirOf cfg.outputDir src (cfg.clock i)) src

/-- The journal grows by writes shaped `shapeAt` within the tick range
the run consumed. -/
def WritesOk (cfg : Config) (s t : St) : Prop :=
  s.tick ≤ t.tick ∧ ∃ new, t.out = s.out ++ new ∧
    ∀ w ∈ new, ∃ i, s.tick ≤ i ∧ i < t.tick ∧ shapeAt cfg i w.1

/-- Sample environment for concrete instantiations: fixed timestamp
`"T"`, two-page rasterization, every inference call answering `"d"`. -/
def wCfg : Config := ⟨"out", fun _ => "T", fun _ => .ok 2, fun _ => .ok "d"⟩

/-- Sample environment whose inference call fails on page 2 of any PDF
and succeeds elsewhere. -/
def wCfgFail : Config :=
  ⟨"out", fun _ => "T", fun _ => .ok 3,
   fun g => match g with | .pdfPage _ 2 => .error "boom" | _ => .ok "d"⟩

/-- A strftime-shaped clock that changes every tick (15 characters for
the first ten ticks). -/
def wClock : Nat → String := fun i => "20250101_12000" ++ toString i

/-- Sample environment with the ticking clock. -/
def wCfgTick : Config := ⟨"out", wClock, fun _ => .ok 1, fun _ => .ok "d"⟩

/-- Sample environment with a frozen clock (two units processed within
the same second), distinguishing sources by their descriptions. -/
def wCfgConst : Config :=
  ⟨"out", fun _ => "20250101_120000", fun _ => .ok 1,
   fun g => match g with | .image "in/a/x.jpg" => .ok "da" | _ => .ok "db"⟩

/-! Characterization lemmas for successful and failing runs. -/

theorem processPages_ok (cfg : Config) (p dir ts : String) (d : Nat → String) :
    ∀ (ks : List Nat) (s : St), (∀ k ∈ ks, cfg.gen (.pdfPage p k) = .ok (d k)) →
      processPages cfg p dir ts ks s =
        ({ s with out := s.out ++
            ks.map (fun k => (pagePath dir k, Record.page k (pathName p) ts (d k))) },
         .ok (ks.map (pagePath dir), ks.map (fun k => (toString k, d k))))
  | [], s, _ => by simp [processPages]
  | k :: ks, s, h => by
    have hk := h k (by simp)
    have hrest := processPages_ok cfg p dir ts d ks
      ({ s with out := s.out ++ [(pagePath dir k, Record.page k (pathName p) ts (d k))] })
      (fun j hj => h j (by simp [hj]))
    simp [processPages, hk, hrest]

theorem process_pdf_ok (cfg : Config) (p : String) (s : St) (n : Nat) (d : Nat → String)
    (hr : cfg.raster p = .ok n)
    (hg : ∀ k ∈ pageNums n, cfg.gen (.pdfPage p k) = .ok (d k)) :
    process_pdf cfg p s =
      ({ tick := s.tick + 1,
         out := s.out ++ pdfWritesOut cfg.outputDir p n (cfg.clock s.tick) d },
       .ok (pdfFilesOut cfg.outputDir p n (cfg.clock s.tick))) := by
  have h := processPages_ok cfg p (pdfOutputDirOf cfg.outputDir p (cfg.clock s.tick))
    (cfg.clock s.tick) d (pageNums n) ({ s with tick := s.tick + 1 }) hg
  simp [process_pdf, hr, h, pdfWritesOut, pdfFilesOut]

theorem processPages_err (cfg : Config) (p dir ts : String) (d : Nat → String)
    (k : Nat) (m : String) (ks2 : List Nat) :
    ∀ (ks1 : List Nat) (s : St), (∀ j ∈ ks1, cfg.gen (.pdfPage p j) = .ok (d j)) →
      cfg.gen (.pdfPage p k) = .error m →
      processPages cfg p dir ts (ks1 ++ k :: ks2) s =
        ({ s with out := s.out ++
            ks1.map (fun j => (pagePath dir j, Record.page j (pathName p) ts (d j))) },
         .error (.inferenceError m))
  | [], s, _, hf => by simp [processPages, hf]
  | j :: ks1, s, h, hf => by
    have hj := h j (by simp)
    have hrest := processPages_err cfg p dir ts d k m ks2 ks1
      ({ s with out := s.out ++ [(pagePath dir j, Record.page j (pathName p) ts (d j))] })
      (fun i hi => h i (by simp [hi])) hf
    simp [processPages, hj, hrest]

theorem pageNums_split (k n : Nat) (hk1 : 1 ≤ k) (hk2 : k ≤ n) :
    pageNums n = pageNums (k - 1) ++ k :: (List.range (n - k)).map (fun x => k + 1 + x) := by
  have hn : n = (k - 1) + ((n - k) + 1) := by omega
  rw [pageNums, hn, List.range_add, List.map_append, List.range_succ_eq_map]
  simp [pageNums, List.map_map, Function.comp]
  refine ⟨by omega, ?_⟩
  rw [show k - 1 + (n - k + 1) - k = n - k from by omega]
  exact List.map_congr_left (fun x _ => by simp; omega)

theorem process_pdf_err (cfg : Config) (p : String) (s : St) (n k : Nat)
    (d : Nat → String) (m : String)
    (hr : cfg.raster p = .ok n) (hk1 : 1 ≤ k) (hk2 : k ≤ n)
    (hg : ∀ j ∈ pageNums (k - 1), cfg.gen (.pdfPage p j) = .ok (d j))
    (hf : cfg.gen (.pdfPage p k) = .error m) :
    process_pdf cfg p s =
      ({ tick := s.tick + 1,
         out := s.out ++ (pageNums (k - 1)).map (fun j =>
           (pagePath (pdfOutputDirOf cfg.outputDir p (cfg.clock s.tick)) j,
            Record.page j (pathName p) (cfg.clock s.tick) (d j))) },
       .error (.inferenceError m)) := by
  have hsplit := pageNums_split k n hk1 hk2
  have h := processPages_err cfg p (pdfOutputDirOf cfg.outputDir p (cfg.clock s.tick))
    (cfg.clock s.tick) d k m ((List.range (n - k)).map (fun x => k + 1 + x))
    (pageNums (k - 1)) ({ s with tick := s.tick + 1 }) hg hf
  simp [process_pdf, hr, hsplit, h]

/-! String-level facts about the output paths: the journal paths are
built by appending stems and timestamps around fixed literals, so
equalities between them can be inverted. -/

theorem slash_data : ("/" : String).data = ['/'] := rfl
theorem underscore_data : ("_" : String).data = ['_'] := rfl
theorem pageSlash_data : ("/page_" : String).data = '/' :: "page_".data := rfl

theorem imageOutputFile_data (od p ts : String) :
    (imageOutputFile od p ts).data =
      od.data ++ '/' :: ((pathStem p).data ++
        ("_description_".data ++ (ts.data ++ ".json".data))) := by
  simp [imageOutputFile, String.data_append, slash_data]

theorem pagePath_pdfDir_data (od p ts : String) (k : Nat) :
    (pagePath (pdfOutputDirOf od p ts) k).data =
      od.data ++ '/' :: ((pathStem p).data ++ '_' ::
        (ts.data ++ '/' :: ("page_".data ++
          ((toString k).data ++ "_description.json".data)))) := by
  simp [pagePath, pdfOutputDirOf, String.data_append, slash_data, underscore_data,
    pageSlash_data]

theorem combinedPath_pdfDir_data (od p ts : String) :
    (combinedPath (pdfOutputDirOf od p ts) p).data =
      od.data ++ '/' :: ((pathStem p).data ++ '_' ::
        (ts.data ++ '/' :: ((pathStem p).data ++ "_all_descriptions.json".data))) := by
  simp [combinedPath, pdfOutputDirOf, String.data_append, slash_data, underscore_data]

theorem noSep_split {c : Char} : ∀ {a b x y : List Char}, c ∉ a → c ∉ b →
    a ++ c :: x = b ++ c :: y → a = b ∧ x = y
  | [], [], x, y, _, _, h => by simpa using h
  | [], e :: b, x, y, _, hb, h => by
    simp at h
    exact absurd (h.1 ▸ List.mem_cons_self e b) (by simpa [h.1] using hb)
  | e :: a, [], x, y, ha, _, h => by
    simp at h
    exact absurd (h.1 ▸ List.mem_cons_self e a) (by simpa [h.1] using ha)
  | e :: a, e' :: b, x, y, ha, hb, h => by
    simp at h
    obtain ⟨he, hrest⟩ := h
    have := noSep_split (c := c) (List.not_mem_of_not_mem_cons ha)
      (List.not_mem_of_not_mem_cons hb) hrest
    simp [he, this.1, this.2]

theorem pathNameAux_noSlash : ∀ (l acc : List Char), '/' ∉ acc → '/' ∉ pathNameAux l acc
  | [], acc, h => h
  | c :: cs, acc, h => by
    by_cases hc : c = '/'
    · simpa [pathNameAux, hc] using pathNameAux_noSlash cs [] (by simp)
    · simpa [pathNameAux, hc] using pathNameAux_noSlash cs (acc ++ [c]) (by simp [h, Ne.symm hc])

theorem splitLastDot_subset : ∀ {l b a : List Char}, splitLastDot l = some (b, a) →
    ∀ x ∈ b, x ∈ l
  | [], b, a, h => by simp [splitLastDot] at h
  | c :: cs, b, a, h => by
    rw [splitLastDot] at h
    match hsplit : splitLastDot cs with
    | some (b0, a0) =>
      rw [hsplit] at h
      simp at h
      intro x hx
      rw [← h.1] at hx
      rcases List.mem_cons.mp hx with h1 | h2
      · simp [h1]
      · exact List.mem_cons_of_mem c (splitLastDot_subset hsplit x h2)
    | none =>
      rw [hsplit] at h
      by_cases hc : c = '.'
      · simp [hc] at h
        intro x hx
        rw [h.1] at hx
        simp at hx
      · simp [hc] at h

theorem stem_noSlash (p : String) : '/' ∉ (pathStem p).data := by
  show '/' ∉ stemChars (pathNameChars p)
  have hname : '/' ∉ pathNameChars p := pathNameAux_noSlash p.data [] (by simp)
  rw [stemChars]
  match hsplit : splitLastDot (pathNameChars p) with
  | some (b, a) =>
    by_cases hba : b = [] ∨ a = []
    · simpa [hba] using hname
    · simp [hba]
      intro hmem
      exact hname (splitLastDot_subset hsplit _ hmem)
  | none => simpa using hname

theorem assoc_mid (a b c : List Char) (x : Char) :
    a ++ x :: (b ++ c) = (a ++ x :: b) ++ c := by simp

theorem seg_image_noSlash (p ts : String) (hts : '/' ∉ ts.data) :
    '/' ∉ (pathStem p).data ++ ("_description_".data ++ (ts.data ++ ".json".data)) := by
  intro h
  rcases List.mem_append.mp h with h | h
  · exact stem_noSlash p h
  rcases List.mem_append.mp h with h | h
  · exact absurd h (by decide)
  rcases List.mem_append.mp h with h | h
  · exact hts h
  · exact absurd h (by decide)

theorem folder_noSlash (p ts : String) (hts : '/' ∉ ts.data) :
    '/' ∉ (pathStem p).data ++ '_' :: ts.data := by
  intro h
  rcases List.mem_append.mp h with h | h
  · exact stem_noSlash p h
  rcases List.mem_cons.mp h with h | h
  · exact absurd h (by decide)
  · exact hts h

theorem image_image_inj {od p1 p2 t1 t2 : String}
    (hlen : t1.data.length = t2.data.length)
    (h : imageOutputFile od p1 t1 = imageOutputFile od p2 t2) :
    pathStem p1 = pathStem p2 ∧ t1 = t2 := by
  have hd := congrArg String.data h
  rw [imageOutputFile_data, imageOutputFile_data] at hd
  have h1 := (List.cons.inj (List.append_cancel_left hd)).2
  simp only [← List.append_assoc] at h1
  have h2 := List.append_cancel_right h1
  have h3 := List.append_inj' h2 hlen
  exact ⟨String.ext (List.append_cancel_right h3.1), String.ext h3.2⟩

theorem folder_split {od p1 p2 t1 t2 : String} {r1 r2 : List Char}
    (hlen : t1.data.length = t2.data.length)
    (hs1 : '/' ∉ t1.data) (hs2 : '/' ∉ t2.data)
    (h : od.data ++ '/' :: ((pathStem p1).data ++ '_' :: (t1.data ++ '/' :: r1)) =
         od.data ++ '/' :: ((pathStem p2).data ++ '_' :: (t2.data ++ '/' :: r2))) :
    pathStem p1 = pathStem p2 ∧ t1 = t2 ∧ r1 = r2 := by
  have h1 := (List.cons.inj (List.append_cancel_left h)).2
  rw [assoc_mid, assoc_mid] at h1
  have h2 := noSep_split (folder_noSlash p1 t1 hs1) (folder_noSlash p2 t2 hs2) h1
  have h3 := List.append_inj' h2.1 (by simp [hlen])
  exact ⟨String.ext h3.1, String.ext (List.cons.inj h3.2).2, h2.2⟩

theorem image_ne_pagePath (od p1 p2 t1 t2 : String) (k2 : Nat) (hs1 : '/' ∉ t1.data) :
    imageOutputFile od p1 t1 ≠ pagePath (pdfOutputDirOf od p2 t2) k2 := by
  intro h
  have hd := congrArg String.data h
  rw [imageOutputFile_data, pagePath_pdfDir_data] at hd
  have h1 := (List.cons.inj (List.append_cancel_left hd)).2
  exact seg_image_noSlash p1 t1 hs1 (h1 ▸ (by simp))

theorem image_ne_combinedPath (od p1 p2 t1 t2 : String) (hs1 : '/' ∉ t1.data) :
    imageOutputFile od p1 t1 ≠ combinedPath (pdfOutputDirOf od p2 t2) p2 := by
  intro h
  have hd := congrArg String.data h
  rw [imageOutputFile_data, combinedPath_pdfDir_data] at hd
  have h1 := (List.cons.inj (List.append_cancel_left hd)).2
  exact seg_image_noSlash p1 t1 hs1 (h1 ▸ (by simp))

theorem artifactPaths_ne (od p1 p2 t1 t2 : String) (k1 k2 : Nat)
    (hor : pathStem p1 ≠ pathStem p2 ∨ t1 ≠ t2)
    (hlen : t1.data.length = t2.data.length)
    (hs1 : '/' ∉ t1.data) (hs2 : '/' ∉ t2.data) :
    imageOutputFile od p1 t1 ≠ imageOutputFile od p2 t2 ∧
    imageOutputFile od p1 t1 ≠ pagePath (pdfOutputDirOf od p2 t2) k2 ∧
    imageOutputFile od p1 t1 ≠ combinedPath (pdfOutputDirOf od p2 t2) p2 ∧
    pagePath (pdfOutputDirOf od p1 t1) k1 ≠ imageOutputFile od p2 t2 ∧
    combinedPath (pdfOutputDirOf od p1 t1) p1 ≠ imageOutputFile od p2 t2 ∧
    pagePath (pdfOutputDirOf od p1 t1) k1 ≠ pagePath (pdfOutputDirOf od p2 t2) k2 ∧
    pagePath (pdfOutputDirOf od p1 t1) k1 ≠ combinedPath (pdfOutputDirOf od p2 t2) p2 ∧
    combinedPath (pdfOutputDirOf od p1 t1) p1 ≠ pagePath (pdfOutputDirOf od p2 t2) k2 ∧
    combinedPath (pdfOutputDirOf od p1 t1) p1 ≠ combinedPath (pdfOutputDirOf od p2 t2) p2 := by
  have hne : ¬ (pathStem p1 = pathStem p2 ∧ t1 = t2) := by
    rcases hor with h | h
    · exact fun hc => h hc.1
    · exact fun hc => h hc.2
  refine ⟨?_, ?_, ?_, ?_, ?_, ?_, ?_, ?_, ?_⟩
  · exact fun h => hne (image_image_inj hlen h)
  · exact image_ne_pagePath od p1 p2 t1 t2 k2 hs1
  · exact image_ne_combinedPath od p1 p2 t1 t2 hs1
  · exact fun h => image_ne_pagePath od p2 p1 t2 t1 k1 hs2 h.symm
  · exact fun h => image_ne_combinedPath od p2 p1 t2 t1 hs2 h.symm
  · intro h
    have hd := congrArg String.data h
    rw [pagePath_pdfDir_data, pagePath_pdfDir_data] at hd
    have := folder_split hlen hs1 hs2 hd
    exact hne ⟨this.1, this.2.1⟩
  · intro h
    have hd := congrArg String.data h
    rw [pagePath_pdfDir_data, combinedPath_pdfDir_data] at hd
    have := folder_split hlen hs1 hs2 hd
    exact hne ⟨this.1, this.2.1⟩
  · intro h
    have hd := congrArg String.data h
    rw [combinedPath_pdfDir_data, pagePath_pdfDir_data] at hd
    have := folder_split hlen hs1 hs2 hd
    exact hne ⟨this.1, this.2.1⟩
  · intro h
    have hd := congrArg String.data h
    rw [combinedPath_pdfDir_data, combinedPath_pdfDir_data] at hd
    have := folder_split hlen hs1 hs2 hd
    exact hne ⟨this.1, this.2.1⟩

theorem process_image_ok (cfg : Config) (p : String) (s : St) (di : String)
    (hg : cfg.gen (.image p) = .ok di) :
    process_image cfg p s =
      ({ tick := s.tick + 1,
         out := s.out ++ [(imageOutputFile cfg.outputDir p (cfg.clock s.tick),
                           Record.image (pathName p) (cfg.clock s.tick) di)] },
       .ok (imageOutputFile cfg.outputDir p (cfg.clock s.tick))) := by
  simp [process_image, hg]

theorem processPdfList_ok (cfg : Config) (N : String → Nat) (D : String → Nat → String) :
    ∀ (fs : List String) (s : St),
      (∀ f ∈ fs, cfg.raster f = .ok (N f) ∧
        ∀ k ∈ pageNums (N f), cfg.gen (.pdfPage f k) = .ok (D f k)) →
      processPdfList cfg fs s =
        ({ tick := s.tick + fs.length,
           out := s.out ++ pdfListWritesOut cfg N D fs s.tick },
         .ok (pdfListFilesOut cfg N fs s.tick))
  | [], s, _ => by simp [processPdfList, pdfListWritesOut, pdfListFilesOut]
  | f :: fs, s, h => by
    obtain ⟨hr, hg⟩ := h f (by simp)
    have h1 := process_pdf_ok cfg f s (N f) (D f) hr hg
    have hrest := processPdfList_ok cfg N D fs
      ({ tick := s.tick + 1,
         out := s.out ++ pdfWritesOut cfg.outputDir f (N f) (cfg.clock s.tick) (D f) })
      (fun g hgm => h g (by simp [hgm]))
    simp [processPdfList, h1, hrest, pdfListWritesOut, pdfListFilesOut]
    omega

theorem processImageList_ok (cfg : Config) (DI : String → String) :
    ∀ (fs : List String) (s : St),
      (∀ f ∈ fs, cfg.gen (.image f) = .ok (DI f)) →
      processImageList cfg fs s =
        ({ tick := s.tick + fs.length,
           out := s.out ++ imageListWritesOut cfg DI fs s.tick },
         .ok (imageListFilesOut cfg fs s.tick))
  | [], s, _ => by simp [processImageList, imageListWritesOut, imageListFilesOut]
  | f :: fs, s, h => by
    have h1 := process_image_ok cfg f s (DI f) (h f (by simp))
    have hrest := processImageList_ok cfg DI fs
      ({ tick := s.tick + 1,
         out := s.out ++ [(imageOutputFile cfg.outputDir f (cfg.clock s.tick),
                           Record.image (pathName f) (cfg.clock s.tick) (DI f))] })
      (fun g hgm => h g (by simp [hgm]))
    simp [processImageList, h1, hrest, imageListWritesOut, imageListFilesOut]
    omega

theorem process_input_path_dir_ok (cfg : Config) (fsys : InputFS) (dir : String) (s : St)
    (N : String → Nat) (D : String → Nat → String) (DI : String → String)
    (hnf : dir ∉ fsys.files)
    (hd : dir ∈ fsys.dirs)
    (hpdf : ∀ f ∈ globFiles fsys dir ".pdf", cfg.raster f = .ok (N f) ∧
      ∀ k ∈ pageNums (N f), cfg.gen (.pdfPage f k) = .ok (D f k))
    (himg : ∀ f ∈ imageExts.flatMap (fun ext => globFiles fsys dir ext),
      cfg.gen (.image f) = .ok (DI f)) :
    process_input_path cfg fsys dir s =
      ({ tick := s.tick + (globFiles fsys dir ".pdf").length +
           (imageExts.flatMap (fun ext => globFiles fsys dir ext)).length,
         out := s.out ++ pdfListWritesOut cfg N D (globFiles fsys dir ".pdf") s.tick ++
           imageListWritesOut cfg DI (imageExts.flatMap (fun ext => globFiles fsys dir ext))
             (s.tick + (globFiles fsys dir ".pdf").length) },
       .ok (pdfListFilesOut cfg N (globFiles fsys dir ".pdf") s.tick ++
         imageListFilesOut cfg (imageExts.flatMap (fun ext => globFiles fsys dir ext))
           (s.tick + (globFiles fsys dir ".pdf").length))) := by
  have h1 := processPdfList_ok cfg N D (globFiles fsys dir ".pdf") s hpdf
  have h2 := processImageList_ok cfg DI (imageExts.flatMap (fun ext => globFiles fsys dir ext))
    ({ tick := s.tick + (globFiles fsys dir ".pdf").length,
       out := s.out ++ pdfListWritesOut cfg N D (globFiles fsys dir ".pdf") s.tick }) himg
  simp [process_input_path, hnf, hd, h1, h2]


/-! Which paths a run can write: every journal entry appended during a
run is an image-record path or a page or combined record path stamped
with one of the clock values in the consumed tick range.  These hold
for every outcome, success or failure. -/

theorem WritesOk_refl (cfg : Config) (s : St) : WritesOk cfg s s :=
  ⟨le_refl _, [], by simp, by simp⟩

theorem WritesOk_trans {cfg : Config} {s t u : St}
    (h1 : WritesOk cfg s t) (h2 : WritesOk cfg t u) : WritesOk cfg s u := by
  obtain ⟨hle1, new1, hout1, hw1⟩ := h1
  obtain ⟨hle2, new2, hout2, hw2⟩ := h2
  refine ⟨le_trans hle1 hle2, new1 ++ new2, by simp [hout2, hout1], ?_⟩
  intro w hw
  rcases List.mem_append.mp hw with h | h
  · obtain ⟨i, hi1, hi2, hs⟩ := hw1 w h
    exact ⟨i, hi1, lt_of_lt_of_le hi2 hle2, hs⟩
  · obtain ⟨i, hi1, hi2, hs⟩ := hw2 w h
    exact ⟨i, le_trans hle1 hi1, hi2, hs⟩

theorem process_image_writes (cfg : Config) (p : String) (s : St) :
    WritesOk cfg s (process_image cfg p s).1 := by
  match hg : cfg.gen (.image p) with
  | .error m => simp only [process_image, hg]; exact WritesOk_refl cfg s
  | .ok d =>
    simp only [process_image, hg]
    refine ⟨by simp, [(imageOutputFile cfg.outputDir p (cfg.clock s.tick),
      Record.image (pathName p) (cfg.clock s.tick) d)], by simp, ?_⟩
    intro w hw
    simp at hw
    exact ⟨s.tick, le_refl _, by simp, p, by simp [hw]⟩

theorem processPages_writes (cfg : Config) (p dir ts : String) :
    ∀ (ks : List Nat) (s : St),
      (processPages cfg p dir ts ks s).1.tick = s.tick ∧
      ∃ new, (processPages cfg p dir ts ks s).1.out = s.out ++ new ∧
        ∀ w ∈ new, ∃ k, w.1 = pagePath dir k
  | [], s => by
    refine ⟨rfl, [], ?_, ?_⟩ <;> simp [processPages]
  | k :: ks, s => by
    match hg : cfg.gen (.pdfPage p k) with
    | .error m =>
      refine ⟨?_, [], ?_, ?_⟩ <;> simp [processPages, hg]
    | .ok d =>
      have hrec := processPages_writes cfg p dir ts ks
        ({ s with out := s.out ++ [(pagePath dir k, Record.page k (pathName p) ts d)] })
      obtain ⟨htick, new, hout, hw⟩ := hrec
      rcases hpp : processPages cfg p dir ts ks
        ({ s with out := s.out ++ [(pagePath dir k, Record.page k (pathName p) ts d)] })
        with ⟨s2, r2⟩
      rw [hpp] at htick hout
      have hgoal : (processPages cfg p dir ts (k :: ks) s).1 = s2 := by
        cases r2 <;> simp [processPages, hg, hpp]
      rw [hgoal]
      refine ⟨htick, (pagePath dir k, Record.page k (pathName p) ts d) :: new,
        by simpa using hout, ?_⟩
      intro w hw2
      rcases List.mem_cons.mp hw2 with h | h
      · exact ⟨k, by simp [h]⟩
      · exact hw w h

theorem process_pdf_writes (cfg : Config) (p : String) (s : St) :
    WritesOk cfg s (process_pdf cfg p s).1 := by
  match hr : cfg.raster p with
  | .error m =>
    simp only [process_pdf, hr]
    exact ⟨by simp, [], by simp, by simp⟩
  | .ok n =>
    obtain ⟨htick, new, hout, hw⟩ := processPages_writes cfg p
      (pdfOutputDirOf cfg.outputDir p (cfg.clock s.tick)) (cfg.clock s.tick)
      (pageNums n) ({ s with tick := s.tick + 1 })
    rcases hpp : processPages cfg p (pdfOutputDirOf cfg.outputDir p (cfg.clock s.tick))
      (cfg.clock s.tick) (pageNums n) ({ s with tick := s.tick + 1 }) with ⟨s2, r2⟩
    rw [hpp] at htick hout
    dsimp only at htick hout
    have hpage : ∀ w ∈ new, shapeAt cfg s.tick w.1 := by
      intro w hmem
      obtain ⟨k, hk⟩ := hw w hmem
      exact ⟨p, Or.inr (Or.inl ⟨k, hk⟩)⟩
    cases r2 with
    | error e =>
      have hgoal : (process_pdf cfg p s).1 = s2 := by simp [process_pdf, hr, hpp]
      rw [hgoal]
      refine ⟨by omega, new, hout, ?_⟩
      intro w hmem
      exact ⟨s.tick, le_refl _, by omega, hpage w hmem⟩
    | ok v =>
      rcases v with ⟨files, descs⟩
      have hgoal : (process_pdf cfg p s).1 = { s2 with out := s2.out ++
          [(combinedPath (pdfOutputDirOf cfg.outputDir p (cfg.clock s.tick)) p,
            Record.combined (pathName p) (cfg.clock s.tick) n descs)] } := by
        simp [process_pdf, hr, hpp]
      rw [hgoal]
      refine ⟨by simp; omega, new ++
        [(combinedPath (pdfOutputDirOf cfg.outputDir p (cfg.clock s.tick)) p,
          Record.combined (pathName p) (cfg.clock s.tick) n descs)],
        by simp [hout], ?_⟩
      intro w hmem
      rcases List.mem_append.mp hmem with h | h
      · exact ⟨s.tick, le_refl _, by simp; omega, hpage w h⟩
      · simp at h
        exact ⟨s.tick, le_refl _, by simp; omega, p, Or.inr (Or.inr (by simp [h]))⟩

theorem processPdfList_writes (cfg : Config) :
    ∀ (fs : List String) (s : St), WritesOk cfg s (processPdfList cfg fs s).1
  | [], s => by simp only [processPdfList]; exact WritesOk_refl cfg s
  | f :: fs, s => by
    have h1 := process_pdf_writes cfg f s
    rcases hp : process_pdf cfg f s with ⟨s1, r1⟩
    rw [hp] at h1
    cases r1 with
    | error e => simpa [processPdfList, hp] using h1
    | ok v =>
      have h2 := processPdfList_writes cfg fs s1
      rcases hrest : processPdfList cfg fs s1 with ⟨s2, r2⟩
      rw [hrest] at h2
      have hgoal : (processPdfList cfg (f :: fs) s).1 = s2 := by
        cases r2 <;> simp [processPdfList, hp, hrest]
      rw [hgoal]
      exact WritesOk_trans h1 h2

theorem processImageList_writes (cfg : Config) :
    ∀ (fs : List String) (s : St), WritesOk cfg s (processImageList cfg fs s).1
  | [], s => by simp only [processImageList]; exact WritesOk_refl cfg s
  | f :: fs, s => by
    have h1 := process_image_writes cfg f s
    rcases hp : process_image cfg f s with ⟨s1, r1⟩
    rw [hp] at h1
    cases r1 with
    | error e => simpa [processImageList, hp] using h1
    | ok v =>
      have h2 := processImageList_writes cfg fs s1
      rcases hrest : processImageList cfg fs s1 with ⟨s2, r2⟩
      rw [hrest] at h2
      have hgoal : (processImageList cfg (f :: fs) s).1 = s2 := by
        cases r2 <;> simp [processImageList, hp, hrest]
      rw [hgoal]
      exact WritesOk_trans h1 h2

theorem process_input_path_writes (cfg : Config) (fsys : InputFS) (ip : String) (s : St) :
    WritesOk cfg s (process_input_path cfg fsys ip s).1 := by
  by_cases hf : ip ∈ fsys.files
  · by_cases hpdf : strLower (pathSuffix ip) = ".pdf"
    · have hgoal : (process_input_path cfg fsys ip s).1 = (process_pdf cfg ip s).1 := by
        simp [process_input_path, hf, hpdf]
      rw [hgoal]; exact process_pdf_writes cfg ip s
    · by_cases himg : strLower (pathSuffix ip) ∈ imageExts
      · have h1 := process_image_writes cfg ip s
        rcases hp : process_image cfg ip s with ⟨s1, r1⟩
        rw [hp] at h1
        have hgoal : (process_input_path cfg fsys ip s).1 = s1 := by
          cases r1 <;> simp [process_input_path, hf, hpdf, himg, hp]
        rw [hgoal]; exact h1
      · have hgoal : (process_input_path cfg fsys ip s).1 = s := by
          simp [process_input_path, hf, hpdf, himg]
        rw [hgoal]; exact WritesOk_refl cfg s
  · by_cases hd : ip ∈ fsys.dirs
    · have h1 := processPdfList_writes cfg (globFiles fsys ip ".pdf") s
      rcases hp : processPdfList cfg (globFiles fsys ip ".pdf") s with ⟨s1, r1⟩
      rw [hp] at h1
      cases r1 with
      | error e =>
        have hgoal : (process_input_path cfg fsys ip s).1 = s1 := by
          simp [process_input_path, hf, hd, hp]
        rw [hgoal]; exact h1
      | ok v =>
        have h2 := processImageList_writes cfg
          (imageExts.flatMap (fun ext => globFiles fsys ip ext)) s1
        rcases hrest : processImageList cfg
          (imageExts.flatMap (fun ext => globFiles fsys ip ext)) s1 with ⟨s2, r2⟩
        rw [hrest] at h2
        have hgoal : (process_input_path cfg fsys ip s).1 = s2 := by
          cases r2 <;> simp [process_input_path, hf, hd, hp, hrest]
        rw [hgoal]
        exact WritesOk_trans h1 h2
    · have hgoal : (process_input_path cfg fsys ip s).1 = s := by
        simp [process_input_path, hf, hd]
      rw [hgoal]; exact WritesOk_refl cfg s

/-- Distinct-timestamp output paths never coincide, whatever their
kinds. -/
theorem shapeAt_ne (cfg : Config) {i j : Nat} {path1 path2 : String}
    (h1 : shapeAt cfg i path1) (h2 : shapeAt cfg j path2)
    (htne : cfg.clock i ≠ cfg.clock j)
    (hlen : (cfg.clock i).data.length = (cfg.clock j).data.length)
    (hsi : '/' ∉ (cfg.clock i).data) (hsj : '/' ∉ (cfg.clock j).data) :
    path1 ≠ path2 := by
  obtain ⟨src1, h1⟩ := h1
  obtain ⟨src2, h2⟩ := h2
  rcases h1 with h1 | ⟨k1, h1⟩ | h1 <;> rcases h2 with h2 | ⟨k2, h2⟩ | h2 <;>
    rw [h1, h2]
  · exact (artifactPaths_ne cfg.outputDir src1 src2 _ _ 0 0
      (Or.inr htne) hlen hsi hsj).1
  · exact (artifactPaths_ne cfg.outputDir src1 src2 _ _ 0 k2
      (Or.inr htne) hlen hsi hsj).2.1
  · exact (artifactPaths_ne cfg.outputDir src1 src2 _ _ 0 0
      (Or.inr htne) hlen hsi hsj).2.2.1
  · exact (artifactPaths_ne cfg.outputDir src1 src2 _ _ k1 0
      (Or.inr htne) hlen hsi hsj).2.2.2.1
  · exact (artifactPaths_ne cfg.outputDir src1 src2 _ _ k1 k2
      (Or.inr htne) hlen hsi hsj).2.2.2.2.2.1
  · exact (artifactPaths_ne cfg.outputDir src1 src2 _ _ k1 0
      (Or.inr htne) hlen hsi hsj).2.2.2.2.2.2.1
  · exact (artifactPaths_ne cfg.outputDir src1 src2 _ _ 0 0
      (Or.inr htne) hlen hsi hsj).2.2.2.2.1
  · exact (artifactPaths_ne cfg.outputDir src1 src2 _ _ 0 k2
      (Or.inr htne) hlen hsi hsj).2.2.2.2.2.2.2.1
  · exact (artifactPaths_ne cfg.outputDir src1 src2 _ _ 0 0
      (Or.inr htne) hlen hsi hsj).2.2.2.2.2.2.2.2


/-! Small facts about the page-number list and the batch formulas. -/

theorem pageNums_length (n : Nat) : (pageNums n).length = n := by simp [pageNums]

theorem pageNums_pairwise (n : Nat) : (pageNums n).Pairwise (· < ·) := by
  exact (List.pairwise_lt_range n).map _ (fun a b h => by omega)

/-- Each PDF of a successful batch contributes its artifact block
contiguously, in page order, somewhere in the batch output. -/
theorem pdfListFilesOut_decomp (cfg : Config) (N : String → Nat) :
    ∀ (fs : List String) (t : Nat), ∀ f ∈ fs, ∃ pre post i,
      pdfListFilesOut cfg N fs t =
        pre ++ pdfFilesOut cfg.outputDir f (N f) (cfg.clock i) ++ post
  | [], t => by simp
  | g :: fs, t => by
    intro f hf
    rcases List.mem_cons.mp hf with h | h
    · subst h
      exact ⟨[], pdfListFilesOut cfg N fs (t + 1), t, by simp [pdfListFilesOut]⟩
    · obtain ⟨pre, post, i, hi⟩ := pdfListFilesOut_decomp cfg N fs (t + 1) f h
      exact ⟨pdfFilesOut cfg.outputDir g (N g) (cfg.clock t) ++ pre, post, i,
        by simp [pdfListFilesOut, hi]⟩


/-! The claims. -/

/-- C1: for a PDF whose rasterization yields `n` pages and whose
per-page inference calls all succeed (page `k` yielding `d k`),
`process_pdf` writes exactly the `n` page records with `page` fields
`1..n` (the strictly increasing list `pageNums n` — no gaps, no
duplicates) followed by exactly one combined record whose `total_pages`
is `n` and whose `pages` mapping holds exactly the keys
`toString 1 .. toString n`, key `toString k` bound to page record `k`'s
description `d k` (all spelled out by `pdfWritesOut`), and returns the
corresponding artifact paths. -/
theorem C1_pdf_success (cfg : Config) (p : String) (s : St) (n : Nat) (d : Nat → String)
    (hr : cfg.raster p = .ok n)
    (hg : ∀ k ∈ pageNums n, cfg.gen (.pdfPage p k) = .ok (d k)) :
    process_pdf cfg p s =
      ({ tick := s.tick + 1,
         out := s.out ++ pdfWritesOut cfg.outputDir p n (cfg.clock s.tick) d },
       .ok (pdfFilesOut cfg.outputDir p n (cfg.clock s.tick))) ∧
    (pdfWritesOut cfg.outputDir p n (cfg.clock s.tick) d).length = n + 1 ∧
    (pageNums n).length = n ∧ (pageNums n).Pairwise (· < ·) := by
  refine ⟨process_pdf_ok cfg p s n d hr hg, ?_, pageNums_length n, pageNums_pairwise n⟩
  simp [pdfWritesOut, pageNums_length]

/-- C1 witness: a concrete two-page PDF processed with the sample
environment, evaluated to its literal journal and artifact list. -/
theorem C1_witness :
    process_pdf wCfg "in/doc.pdf" ⟨0, []⟩ =
      (⟨1, [("out/doc_T/page_1_description.json", .page 1 "doc.pdf" "T" "d"),
            ("out/doc_T/page_2_description.json", .page 2 "doc.pdf" "T" "d"),
            ("out/doc_T/doc_all_descriptions.json",
              .combined "doc.pdf" "T" 2 [("1", "d"), ("2", "d")])]⟩,
       .ok ["out/doc_T/page_1_description.json", "out/doc_T/page_2_description.json",
            "out/doc_T/doc_all_descriptions.json"]) ∧
    (pageNums 2).Pairwise (· < ·) := by
  have h := C1_pdf_success wCfg "in/doc.pdf" ⟨0, []⟩ 2 (fun _ => "d") rfl (fun k _ => rfl)
  exact ⟨h.1.trans (by decide), h.2.2.2⟩

/-- C2: if rasterization yields `n` pages and the inference call for
page `k` (with `1 ≤ k ≤ n`) fails while pages `1..k-1` succeeded,
`process_pdf` raises that inference error unchanged, the journal gains
exactly the page records for `1..k-1` (which therefore remain on disk),
every one of those new writes is a page record — in particular no
combined summary record is written — and `process_input_path` on that
PDF file propagates the same result. -/
theorem C2_page_failure (cfg : Config) (p : String) (s : St) (n k : Nat)
    (d : Nat → String) (m : String)
    (hr : cfg.raster p = .ok n) (hk1 : 1 ≤ k) (hk2 : k ≤ n)
    (hg : ∀ j ∈ pageNums (k - 1), cfg.gen (.pdfPage p j) = .ok (d j))
    (hf : cfg.gen (.pdfPage p k) = .error m) :
    process_pdf cfg p s =
      ({ tick := s.tick + 1,
         out := s.out ++ (pageNums (k - 1)).map (fun j =>
           (pagePath (pdfOutputDirOf cfg.outputDir p (cfg.clock s.tick)) j,
            Record.page j (pathName p) (cfg.clock s.tick) (d j))) },
       .error (.inferenceError m)) ∧
    (∀ w ∈ (pageNums (k - 1)).map (fun j =>
        (pagePath (pdfOutputDirOf cfg.outputDir p (cfg.clock s.tick)) j,
         Record.page j (pathName p) (cfg.clock s.tick) (d j))),
      ∃ j ds, w.2 = Record.page j (pathName p) (cfg.clock s.tick) ds) ∧
    (∀ fsys : InputFS, p ∈ fsys.files → strLower (pathSuffix p) = ".pdf" →
      process_input_path cfg fsys p s = process_pdf cfg p s) := by
  refine ⟨process_pdf_err cfg p s n k d m hr hk1 hk2 hg hf, ?_, ?_⟩
  · intro w hw
    simp only [List.mem_map] at hw
    obtain ⟨j, hj, hw⟩ := hw
    exact ⟨j, d j, by rw [← hw]⟩
  · intro fsys hmem hsuf
    simp [process_input_path, hmem, hsuf]

/-- C2 witness: page 2 of a three-page PDF fails; page 1's record is
the only write, the error propagates, and the top-level dispatch
returns the same failing outcome. -/
theorem C2_witness :
    process_pdf wCfgFail "in/doc.pdf" ⟨0, []⟩ =
      (⟨1, [("out/doc_T/page_1_description.json", .page 1 "doc.pdf" "T" "d")]⟩,
       .error (.inferenceError "boom")) ∧
    process_input_path wCfgFail ⟨["in/doc.pdf"], []⟩ "in/doc.pdf" ⟨0, []⟩ =
      (⟨1, [("out/doc_T/page_1_description.json", .page 1 "doc.pdf" "T" "d")]⟩,
       .error (.inferenceError "boom")) := by
  have h := C2_page_failure wCfgFail "in/doc.pdf" ⟨0, []⟩ 3 2 (fun _ => "d") "boom"
    rfl (by decide) (by decide)
    (by intro j hj; simp [pageNums] at hj; subst hj; rfl) rfl
  refine ⟨h.1.trans (by decide),
    (h.2.2 ⟨["in/doc.pdf"], []⟩ (by simp) (by decide)).trans (h.1.trans (by decide))⟩

/-- C6: the naming scheme.  A standalone image record goes to
`{stem}_description_{timestamp}.json` directly in the output directory
with the same timestamp in its body; every write of a successfully
processed PDF is either a page record at `page_{k}_description.json` or
the combined record at `{stem}_all_descriptions.json`, both inside the
per-document folder `{stem}_{timestamp}`, and the single timestamp
captured for the document appears in the folder name and in every one
of those records. -/
theorem C6_naming (cfg : Config) (imgP pdfP : String) (s t : St) (di : String)
    (n : Nat) (d : Nat → String)
    (hgi : cfg.gen (.image imgP) = .ok di)
    (hr : cfg.raster pdfP = .ok n)
    (hg : ∀ k ∈ pageNums n, cfg.gen (.pdfPage pdfP k) = .ok (d k)) :
    (process_image cfg imgP s =
      ({ tick := s.tick + 1,
         out := s.out ++ [(imageOutputFile cfg.outputDir imgP (cfg.clock s.tick),
           Record.image (pathName imgP) (cfg.clock s.tick) di)] },
       .ok (imageOutputFile cfg.outputDir imgP (cfg.clock s.tick)))) ∧
    (∃ new, (process_pdf cfg pdfP t).1.out = t.out ++ new ∧
      ∀ w ∈ new,
        (∃ k dd, w = (pagePath (pdfOutputDirOf cfg.outputDir pdfP (cfg.clock t.tick)) k,
           Record.page k (pathName pdfP) (cfg.clock t.tick) dd)) ∨
        (∃ pg, w = (combinedPath (pdfOutputDirOf cfg.outputDir pdfP (cfg.clock t.tick)) pdfP,
           Record.combined (pathName pdfP) (cfg.clock t.tick) n pg))) := by
  refine ⟨process_image_ok cfg imgP s di hgi, ?_⟩
  refine ⟨pdfWritesOut cfg.outputDir pdfP n (cfg.clock t.tick) d, ?_, ?_⟩
  · rw [process_pdf_ok cfg pdfP t n d hr hg]
  · intro w hw
    simp only [pdfWritesOut, List.mem_append, List.mem_map, List.mem_singleton] at hw
    rcases hw with ⟨k, _, hw⟩ | hw
    · exact Or.inl ⟨k, d k, hw.symm⟩
    · exact Or.inr ⟨(pageNums n).map (fun k => (toString k, d k)), hw⟩

/-- C6 witness: the naming scheme evaluated on a concrete image and a
concrete two-page PDF. -/
theorem C6_witness :
    process_image wCfg "in/photo.png" ⟨0, []⟩ =
      (⟨1, [("out/photo_description_T.json", .image "photo.png" "T" "d")]⟩,
       .ok "out/photo_description_T.json") ∧
    (∃ new, (process_pdf wCfg "in/doc.pdf" ⟨0, []⟩).1.out = [] ++ new ∧
      ∀ w ∈ new,
        (∃ k dd, w = (pagePath (pdfOutputDirOf "out" "in/doc.pdf" "T") k,
           Record.page k "doc.pdf" "T" dd)) ∨
        (∃ pg, w = (combinedPath (pdfOutputDirOf "out" "in/doc.pdf" "T") "in/doc.pdf",
           Record.combined "doc.pdf" "T" 2 pg))) := by
  have h := C6_naming wCfg "in/photo.png" "in/doc.pdf" ⟨0, []⟩ ⟨0, []⟩ "d" 2
    (fun _ => "d") rfl rfl (fun k _ => rfl)
  exact ⟨h.1.trans (by decide), h.2⟩

/-- C7: an input path that is neither an existing file nor an existing
directory makes `process_input_path` fail with the `FileNotFoundError`
of line 291, leaving the journal untouched (zero artifacts). -/
theorem C7_notFound (cfg : Config) (fsys : InputFS) (ip : String) (s : St)
    (hf : ip ∉ fsys.files) (hd : ip ∉ fsys.dirs) :
    process_input_path cfg fsys ip s =
      (s, .error (.notFound ("Input path does not exist: " ++ ip))) := by
  simp [process_input_path, hf, hd]

/-- C7 witness: a missing path on an empty input tree. -/
theorem C7_witness :
    process_input_path wCfg ⟨[], []⟩ "nowhere" ⟨0, []⟩ =
      (⟨0, []⟩, .error (.notFound "Input path does not exist: nowhere")) := by
  exact (C7_notFound wCfg ⟨[], []⟩ "nowhere" ⟨0, []⟩ (by simp) (by simp)).trans (by decide)

/-- C8 counterexample: the claim says `generate` fails exactly on a
transport failure or a non-success (non-2xx) status, but a final 304
response — non-2xx — does not raise: `requests.raise_for_status` only
raises for 4xx/5xx, so the call succeeds and returns the absent field
as the empty string. -/
theorem C8_counterexample :
    generateResult (.response 304 none) = .ok "" ∧ ¬ (200 ≤ 304 ∧ (304 : Nat) < 300) :=
  ⟨rfl, by decide⟩

/-- C8 (amended): `generate` fails with the Ollama-API inference error
exactly when the request suffers a transport failure or a status in
400..599 (the statuses `raise_for_status` raises for); any other
response — including 1xx/3xx — succeeds, returning the `response`
field verbatim and the empty string when the field is absent. -/
theorem C8_generate (m : String) (st : Nat) (f : Option String) (dd : String) :
    (generateResult (.transportError m) =
      .error (.inferenceError ("Error calling Ollama API: " ++ m))) ∧
    (400 ≤ st ∧ st < 600 →
      ∃ e, generateResult (.response st f) = .error (.inferenceError e)) ∧
    (¬ (400 ≤ st ∧ st < 600) →
      generateResult (.response st f) = .ok (f.getD "")) ∧
    (¬ (400 ≤ st ∧ st < 600) →
      generateResult (.response st (some dd)) = .ok dd) ∧
    (¬ (400 ≤ st ∧ st < 600) →
      generateResult (.response st none) = .ok "") := by
  refine ⟨rfl, ?_, ?_, ?_, ?_⟩
  · intro h
    exact ⟨"Error calling Ollama API: HTTP status " ++ toString st,
      by simp [generateResult, h]⟩
  · intro h; simp [generateResult, h]
  · intro h; simp [generateResult, h]
  · intro h; simp [generateResult, h]

/-- C8 witness: transport failure and a 500 fail, a 200 with a field
returns it verbatim, a 200 without one returns the empty string. -/
theorem C8_witness :
    generateResult (.transportError "refused") =
      .error (.inferenceError "Error calling Ollama API: refused") ∧
    (∃ e, generateResult (.response 500 (some "x")) = .error (.inferenceError e)) ∧
    generateResult (.response 200 (some "hello")) = .ok "hello" ∧
    generateResult (.response 200 none) = .ok "" := by
  refine ⟨(C8_generate "refused" 0 none "").1, (C8_generate "" 500 (some "x") "").2.1 (by decide),
    (C8_generate "" 200 none "hello").2.2.2.1 (by decide),
    (C8_generate "" 200 none "").2.2.2.2 (by decide)⟩

/-- C9: a successful `process_pdf` returns the page-record paths in
strictly increasing page order followed by the combined-record path as
the final element; `process_input_path` returns exactly that list for a
single PDF file, and inside a directory batch each PDF's block appears
contiguously and unchanged in the returned list. -/
theorem C9_artifact_order (cfg : Config) (p : String) (s : St) (n : Nat) (d : Nat → String)
    (hr : cfg.raster p = .ok n)
    (hg : ∀ k ∈ pageNums n, cfg.gen (.pdfPage p k) = .ok (d k)) :
    ((process_pdf cfg p s).2 =
      .ok ((pageNums n).map (pagePath (pdfOutputDirOf cfg.outputDir p (cfg.clock s.tick))) ++
        [combinedPath (pdfOutputDirOf cfg.outputDir p (cfg.clock s.tick)) p])) ∧
    (pageNums n).Pairwise (· < ·) ∧
    (∀ fsys : InputFS, p ∈ fsys.files → strLower (pathSuffix p) = ".pdf" →
      process_input_path cfg fsys p s = process_pdf cfg p s) ∧
    (∀ (fsys : InputFS) (dir : String) (N : String → Nat) (D : String → Nat → String)
        (DI : String → String),
      dir ∉ fsys.files → dir ∈ fsys.dirs →
      (∀ f ∈ globFiles fsys dir ".pdf", cfg.raster f = .ok (N f) ∧
        ∀ k ∈ pageNums (N f), cfg.gen (.pdfPage f k) = .ok (D f k)) →
      (∀ f ∈ imageExts.flatMap (fun ext => globFiles fsys dir ext),
        cfg.gen (.image f) = .ok (DI f)) →
      ∀ f ∈ globFiles fsys dir ".pdf", ∃ pre post i,
        (process_input_path cfg fsys dir s).2 =
          .ok (pre ++ pdfFilesOut cfg.outputDir f (N f) (cfg.clock i) ++ post)) := by
  refine ⟨?_, pageNums_pairwise n, ?_, ?_⟩
  · rw [process_pdf_ok cfg p s n d hr hg]
    simp [pdfFilesOut]
  · intro fsys hmem hsuf
    simp [process_input_path, hmem, hsuf]
  · intro fsys dir N D DI hnf hd hpdf himg f hf
    obtain ⟨pre, post, i, hi⟩ :=
      pdfListFilesOut_decomp cfg N (globFiles fsys dir ".pdf") s.tick f hf
    refine ⟨pre, post ++ imageListFilesOut cfg
      (imageExts.flatMap (fun ext => globFiles fsys dir ext))
      (s.tick + (globFiles fsys dir ".pdf").length), i, ?_⟩
    rw [process_input_path_dir_ok cfg fsys dir s N D DI hnf hd hpdf himg]
    simp [hi]

/-- C9 witness: the concrete two-page PDF's artifact list, in order,
both from `process_pdf` and through the single-file dispatch, and its
contiguous block inside a directory batch. -/
theorem C9_witness :
    (process_pdf wCfg "in/doc.pdf" ⟨0, []⟩).2 =
      .ok ["out/doc_T/page_1_description.json", "out/doc_T/page_2_description.json",
           "out/doc_T/doc_all_descriptions.json"] ∧
    process_input_path wCfg ⟨["in/doc.pdf"], []⟩ "in/doc.pdf" ⟨0, []⟩ =
      process_pdf wCfg "in/doc.pdf" ⟨0, []⟩ ∧
    (∃ pre post i, (process_input_path wCfg ⟨["in/doc.pdf"], ["in"]⟩ "in" ⟨0, []⟩).2 =
      .ok (pre ++ pdfFilesOut "out" "in/doc.pdf" 2 (wCfg.clock i) ++ post)) := by
  have h := C9_artifact_order wCfg "in/doc.pdf" ⟨0, []⟩ 2 (fun _ => "d") rfl (fun k _ => rfl)
  refine ⟨h.1.trans (by decide), h.2.2.1 ⟨["in/doc.pdf"], []⟩ (by simp) (by decide), ?_⟩
  exact h.2.2.2 ⟨["in/doc.pdf"], ["in"]⟩ "in" (fun _ => 2) (fun _ _ => "d") (fun _ => "d")
    (by simp) (by simp) (fun f hf => ⟨rfl, fun k _ => rfl⟩) (fun f hf => rfl)
    "in/doc.pdf" (by decide)

/-- C10: a PDF that rasterizes to zero pages still succeeds: no page
records, exactly one combined record with `total_pages = 0` and an
empty `pages` mapping, and a one-element artifact list. -/
theorem C10_zero_pages (cfg : Config) (p : String) (s : St)
    (hr : cfg.raster p = .ok 0) :
    process_pdf cfg p s =
      ({ tick := s.tick + 1,
         out := s.out ++
           [(combinedPath (pdfOutputDirOf cfg.outputDir p (cfg.clock s.tick)) p,
             Record.combined (pathName p) (cfg.clock s.tick) 0 [])] },
       .ok [combinedPath (pdfOutputDirOf cfg.outputDir p (cfg.clock s.tick)) p]) := by
  have h := process_pdf_ok cfg p s 0 (fun _ => "") hr (by simp [pageNums])
  simpa [pdfWritesOut, pdfFilesOut, pageNums] using h

/-- C10 witness: a concrete zero-page PDF produces exactly the one
combined record with `total_pages = 0`. -/
theorem C10_witness :
    process_pdf ⟨"out", fun _ => "T", fun _ => .ok 0, fun _ => .ok "d"⟩ "in/doc.pdf" ⟨0, []⟩ =
      (⟨1, [("out/doc_T/doc_all_descriptions.json", .combined "doc.pdf" "T" 0 [])]⟩,
       .ok ["out/doc_T/doc_all_descriptions.json"]) := by
  exact (C10_zero_pages ⟨"out", fun _ => "T", fun _ => .ok 0, fun _ => .ok "d"⟩
    "in/doc.pdf" ⟨0, []⟩ rfl).trans (by decide)


/-- C3 counterexample: two distinct source files that share a stem
(`in/a/x.jpg`, `in/b/x.jpg`), discovered in one recursive directory run
and processed within the same second (frozen clock), are written to the
SAME output path — the journal records two writes to one path and the
returned artifact list repeats it, so the second record overwrites the
first. -/
theorem C3_counterexample :
    process_input_path wCfgConst ⟨["in/a/x.jpg", "in/b/x.jpg"], ["in"]⟩ "in" ⟨0, []⟩ =
      (⟨2, [("out/x_description_20250101_120000.json",
              .image "x.jpg" "20250101_120000" "da"),
            ("out/x_description_20250101_120000.json",
              .image "x.jpg" "20250101_120000" "db")]⟩,
       .ok ["out/x_description_20250101_120000.json",
            "out/x_description_20250101_120000.json"]) ∧
    ("in/a/x.jpg" : String) ≠ "in/b/x.jpg" :=
  ⟨rfl, by decide⟩

/-- C3 (amended): the derived output paths never collide across sources
with DISTINCT STEMS, given timestamps of equal length that contain no
slash (both guaranteed by the `%Y%m%d_%H%M%S` format): all nine
combinations of record kinds for the two sources land on distinct
paths.  Sources sharing a stem are separated only by the timestamp and
collide when it coincides (see the counterexample). -/
theorem C3_path_uniqueness (od p1 p2 t1 t2 : String) (k1 k2 : Nat)
    (hstem : pathStem p1 ≠ pathStem p2)
    (hlen : t1.data.length = t2.data.length)
    (hs1 : '/' ∉ t1.data) (hs2 : '/' ∉ t2.data) :
    imageOutputFile od p1 t1 ≠ imageOutputFile od p2 t2 ∧
    imageOutputFile od p1 t1 ≠ pagePath (pdfOutputDirOf od p2 t2) k2 ∧
    imageOutputFile od p1 t1 ≠ combinedPath (pdfOutputDirOf od p2 t2) p2 ∧
    pagePath (pdfOutputDirOf od p1 t1) k1 ≠ imageOutputFile od p2 t2 ∧
    combinedPath (pdfOutputDirOf od p1 t1) p1 ≠ imageOutputFile od p2 t2 ∧
    pagePath (pdfOutputDirOf od p1 t1) k1 ≠ pagePath (pdfOutputDirOf od p2 t2) k2 ∧
    pagePath (pdfOutputDirOf od p1 t1) k1 ≠ combinedPath (pdfOutputDirOf od p2 t2) p2 ∧
    combinedPath (pdfOutputDirOf od p1 t1) p1 ≠ pagePath (pdfOutputDirOf od p2 t2) k2 ∧
    combinedPath (pdfOutputDirOf od p1 t1) p1 ≠ combinedPath (pdfOutputDirOf od p2 t2) p2 :=
  artifactPaths_ne od p1 p2 t1 t2 k1 k2 (Or.inl hstem) hlen hs1 hs2

/-- C3 witness: two concrete distinct-stem sources with format-shaped
timestamps get distinct image paths and distinct page/combined paths. -/
theorem C3_witness :
    imageOutputFile "out" "in/a.jpg" "20250101_120000" ≠
      imageOutputFile "out" "in/b.jpg" "20250101_120000" ∧
    pagePath (pdfOutputDirOf "out" "in/a.pdf" "20250101_120000") 1 ≠
      combinedPath (pdfOutputDirOf "out" "in/b.pdf" "20250101_120000") "in/b.pdf" := by
  refine ⟨(C3_path_uniqueness "out" "in/a.jpg" "in/b.jpg"
      "20250101_120000" "20250101_120000" 1 1 (by decide) (by decide)
      (by decide) (by decide)).1,
    (C3_path_uniqueness "out" "in/a.pdf" "in/b.pdf"
      "20250101_120000" "20250101_120000" 1 1 (by decide) (by decide)
      (by decide) (by decide)).2.2.2.2.2.2.1⟩

/-- C4 counterexample: the claim says directory enumeration matches
extensions case-insensitively, but the source uses
`input_path.glob(f'**/*{ext}')` with lowercase literals, which is
case-sensitive: a directory containing only `in/x.JPG` produces ZERO
artifacts, even though the same file dispatched as a single file (where
`suffix.lower()` is used) is processed. -/
theorem C4_counterexample :
    process_input_path wCfgTick ⟨["in/x.JPG"], ["in"]⟩ "in" ⟨0, []⟩ =
      (⟨0, []⟩, .ok []) ∧
    imageExts.contains (strLower (pathSuffix "in/x.JPG")) = true ∧
    process_input_path wCfgTick ⟨["in/x.JPG"], ["in"]⟩ "in/x.JPG" ⟨0, []⟩ =
      (⟨1, [("out/x_description_20250101_120000.json",
             .image "x.JPG" "20250101_120000" "d")]⟩,
       .ok ["out/x_description_20250101_120000.json"]) :=
  ⟨rfl, rfl, rfl⟩

/-- C4 (amended): for a directory input, `process_input_path` processes
exactly the files strictly below the directory (at any nesting depth)
whose final component ends with one of the five literal LOWERCASE
image extensions or `.pdf` (the case-sensitive glob of lines 273-276),
processing all PDFs before all images and returning every artifact path
the nested calls produce, in order. -/
theorem C4_directory (cfg : Config) (fsys : InputFS) (dir : String) (s : St)
    (N : String → Nat) (D : String → Nat → String) (DI : String → String)
    (hnf : dir ∉ fsys.files)
    (hd : dir ∈ fsys.dirs)
    (hpdf : ∀ f ∈ globFiles fsys dir ".pdf", cfg.raster f = .ok (N f) ∧
      ∀ k ∈ pageNums (N f), cfg.gen (.pdfPage f k) = .ok (D f k))
    (himg : ∀ f ∈ imageExts.flatMap (fun ext => globFiles fsys dir ext),
      cfg.gen (.image f) = .ok (DI f)) :
    process_input_path cfg fsys dir s =
      ({ tick := s.tick + (globFiles fsys dir ".pdf").length +
           (imageExts.flatMap (fun ext => globFiles fsys dir ext)).length,
         out := s.out ++ pdfListWritesOut cfg N D (globFiles fsys dir ".pdf") s.tick ++
           imageListWritesOut cfg DI (imageExts.flatMap (fun ext => globFiles fsys dir ext))
             (s.tick + (globFiles fsys dir ".pdf").length) },
       .ok (pdfListFilesOut cfg N (globFiles fsys dir ".pdf") s.tick ++
         imageListFilesOut cfg (imageExts.flatMap (fun ext => globFiles fsys dir ext))
           (s.tick + (globFiles fsys dir ".pdf").length))) ∧
    (∀ ext f, f ∈ globFiles fsys dir ext ↔
      f ∈ fsys.files ∧ strStartsWith f (dir ++ "/") = true ∧
        strEndsWith (pathName f) ext = true) := by
  refine ⟨process_input_path_dir_ok cfg fsys dir s N D DI hnf hd hpdf himg, ?_⟩
  intro ext f
  simp [globFiles, List.mem_filter, Bool.and_eq_true, and_assoc]

/-- C4 witness: a directory holding one PDF and one nested image is
processed PDF first, image second, with all artifacts returned; and the
nested image is globbed exactly because its name ends in `.png`. -/
theorem C4_witness :
    process_input_path wCfgTick ⟨["in/doc.pdf", "in/sub/y.png"], ["in"]⟩ "in" ⟨0, []⟩ =
      (⟨2, [("out/doc_20250101_120000/page_1_description.json",
              .page 1 "doc.pdf" "20250101_120000" "d"),
            ("out/doc_20250101_120000/doc_all_descriptions.json",
              .combined "doc.pdf" "20250101_120000" 1 [("1", "d")]),
            ("out/y_description_20250101_120001.json",
              .image "y.png" "20250101_120001" "d")]⟩,
       .ok ["out/doc_20250101_120000/page_1_description.json",
            "out/doc_20250101_120000/doc_all_descriptions.json",
            "out/y_description_20250101_120001.json"]) ∧
    ("in/sub/y.png" ∈ globFiles ⟨["in/doc.pdf", "in/sub/y.png"], ["in"]⟩ "in" ".png" ↔
      "in/sub/y.png" ∈ ["in/doc.pdf", "in/sub/y.png"] ∧
        strStartsWith "in/sub/y.png" ("in" ++ "/") = true ∧
        strEndsWith (pathName "in/sub/y.png") ".png" = true) := by
  have h := C4_directory wCfgTick ⟨["in/doc.pdf", "in/sub/y.png"], ["in"]⟩ "in" ⟨0, []⟩
    (fun _ => 1) (fun _ _ => "d") (fun _ => "d") (by simp) (by simp)
    (fun f _ => ⟨rfl, fun k _ => rfl⟩) (fun f _ => rfl)
  exact ⟨h.1.trans (by decide), h.2 ".png" "in/sub/y.png"⟩

/-- C5 counterexample: two consecutive runs on the same image input
within the same second (frozen clock) write to the SAME path — the
second run's journal entry repeats the first run's path, overwriting
its artifact, so the claim fails as stated. -/
theorem C5_counterexample :
    process_input_path wCfgConst ⟨["in/a/x.jpg"], []⟩ "in/a/x.jpg"
        ((process_input_path wCfgConst ⟨["in/a/x.jpg"], []⟩ "in/a/x.jpg" ⟨0, []⟩).1) =
      (⟨2, [("out/x_description_20250101_120000.json",
              .image "x.jpg" "20250101_120000" "da"),
            ("out/x_description_20250101_120000.json",
              .image "x.jpg" "20250101_120000" "da")]⟩,
       .ok ["out/x_description_20250101_120000.json"]) :=
  rfl

/-- C5 (amended): two consecutive runs on the same input never
overwrite each other's outputs PROVIDED every timestamp captured in the
second run differs from every timestamp captured in the first
(guaranteed once the runs are separated by more than the one-second
resolution of `%Y%m%d_%H%M%S`) and the timestamps have the format's
15-character slash-free shape: every path written by the second run
differs from every path written by the first, so the first run's
artifacts all remain. -/
theorem C5_no_overwrite (cfg : Config) (fsys : InputFS) (ip : String)
    (s0 s1 s2 : St) (r1 r2 : Except Err (List String))
    (h1 : process_input_path cfg fsys ip s0 = (s1, r1))
    (h2 : process_input_path cfg fsys ip s1 = (s2, r2))
    (hts : ∀ i j, s0.tick ≤ i → i < s1.tick → s1.tick ≤ j → j < s2.tick →
      cfg.clock i ≠ cfg.clock j)
    (hlen : ∀ i, s0.tick ≤ i → i < s2.tick → (cfg.clock i).data.length = 15)
    (hslash : ∀ i, s0.tick ≤ i → i < s2.tick → '/' ∉ (cfg.clock i).data) :
    ∃ new1 new2, s1.out = s0.out ++ new1 ∧ s2.out = s1.out ++ new2 ∧
      ∀ w1 ∈ new1, ∀ w2 ∈ new2, w1.1 ≠ w2.1 := by
  have hw1 : s0.tick ≤ s1.tick ∧ ∃ new, s1.out = s0.out ++ new ∧
      ∀ w ∈ new, ∃ i, s0.tick ≤ i ∧ i < s1.tick ∧ shapeAt cfg i w.1 := by
    have h := process_input_path_writes cfg fsys ip s0
    rw [h1] at h
    exact h
  have hw2 : s1.tick ≤ s2.tick ∧ ∃ new, s2.out = s1.out ++ new ∧
      ∀ w ∈ new, ∃ j, s1.tick ≤ j ∧ j < s2.tick ∧ shapeAt cfg j w.1 := by
    have h := process_input_path_writes cfg fsys ip s1
    rw [h2] at h
    exact h
  obtain ⟨hle1, new1, hout1, hsh1⟩ := hw1
  obtain ⟨hle2, new2, hout2, hsh2⟩ := hw2
  refine ⟨new1, new2, hout1, hout2, ?_⟩
  intro w1 hm1 w2 hm2
  obtain ⟨i, hi1, hi2, hshape1⟩ := hsh1 w1 hm1
  obtain ⟨j, hj1, hj2, hshape2⟩ := hsh2 w2 hm2
  exact shapeAt_ne cfg hshape1 hshape2
    (hts i j hi1 hi2 hj1 hj2)
    (by rw [hlen i hi1 (lt_of_lt_of_le hi2 hle2), hlen j (le_trans hle1 hj1) hj2])
    (hslash i hi1 (lt_of_lt_of_le hi2 hle2))
    (hslash j (le_trans hle1 hj1) hj2)

/-- C5 witness: with the ticking strftime-shaped clock, the second run
on the same image leaves the first run's artifact untouched. -/
theorem C5_witness :
    ∃ new1 new2,
      (⟨1, [("out/x_description_20250101_120000.json",
             Record.image "x.jpg" "20250101_120000" "d")]⟩ : St).out = ([] : List (String × Record)) ++ new1 ∧
      (⟨2, [("out/x_description_20250101_120000.json",
             Record.image "x.jpg" "20250101_120000" "d"),
            ("out/x_description_20250101_120001.json",
             Record.image "x.jpg" "20250101_120001" "d")]⟩ : St).out =
        [("out/x_description_20250101_120000.json",
          Record.image "x.jpg" "20250101_120000" "d")] ++ new2 ∧
      ∀ w1 ∈ new1, ∀ w2 ∈ new2, w1.1 ≠ w2.1 := by
  have h := C5_no_overwrite wCfgTick ⟨["in/x.jpg"], []⟩ "in/x.jpg" ⟨0, []⟩
    ⟨1, [("out/x_description_20250101_120000.json",
          Record.image "x.jpg" "20250101_120000" "d")]⟩
    ⟨2, [("out/x_description_20250101_120000.json",
          Record.image "x.jpg" "20250101_120000" "d"),
         ("out/x_description_20250101_120001.json",
          Record.image "x.jpg" "20250101_120001" "d")]⟩
    (.ok ["out/x_description_20250101_120000.json"])
    (.ok ["out/x_description_20250101_120001.json"])
    rfl rfl
    (by intro i j hge hi hj1 hj2
        dsimp only at hge hi hj1 hj2
        have hi0 : i = 0 := by omega
        have hj0 : j = 1 := by omega
        subst hi0; subst hj0; decide)
    (by intro i hge hi
        dsimp only at hge hi
        have : i = 0 ∨ i = 1 := by omega
        rcases this with rfl | rfl <;> decide)
    (by intro i hge hi
        dsimp only at hge hi
        have : i = 0 ∨ i = 1 := by omega
        rcases this with rfl | rfl <;> decide)
  exact h

end F2K
